import Mathlib

/-
Verification of the multiscale (image-pyramid) registration driver implemented in
src/Python/66_Registration_Demons.ipynb: the functions smooth_and_resample and
multiscale_demons.

Modelling choices:
* A SimpleITK image is embedded as a first-order term (the inductive Img) recording
  which library call produced it together with all arguments of that call.  The
  external library primitives (SmoothingRecursiveGaussian, Resample, the Demons
  filter's Execute, TransformToDisplacementField, the Image constructor and
  CopyInformation) are opaque collaborators, so they appear as constructors; the
  grid metadata (size, origin, spacing, direction) of their results is computed by
  recursion following the library's documented contracts, which is all this driver
  observes about them.
* Python floats are modelled by rationals; machine sizes by naturals.
* Python's ZeroDivisionError in the new-spacing formula of smooth_and_resample is
  modelled by Except: the function returns Except.error Err.zeroDivision exactly
  when the Python code raises.
* multiscale_demons additionally returns the trace of calls made to the
  registration algorithm's Execute method, so that claims about the number, order
  and arguments of the per-level registrations can be stated.  The trace is a pure
  observation; the transform result is computed exactly as in the source.
-/

/-- SimpleITK interpolator enum token for sitkLinear. -/
def sitkLinear : ℕ := 2

/-- SimpleITK pixel-id enum token for sitkVectorFloat64. -/
def sitkVectorFloat64 : ℕ := 13

/-- An opaque SimpleITK transform supplied by the caller (sitk.Transform() is the
identity transform; any other transform is an opaque capability). -/
inductive SitkTransform where
  | identity
  | generic (id : ℕ)
deriving DecidableEq, Repr

/-- A SimpleITK image, embedded as the term of library calls that produced it.
Constructor arguments mirror the arguments of the corresponding library call:

* base: an input image with its pixel id, size, origin, spacing and direction.
* smoothed: sitk.SmoothingRecursiveGaussian(src, sigma).
* resampled: sitk.Resample(src, size, transform, interpolator, outputOrigin,
  outputSpacing, outputDirection, defaultPixelValue, outputPixelType).
* resampleRef: sitk.Resample(src, ref) - resampling onto the grid of a reference
  image with the default (linear) interpolator, identity transform and default
  value 0, i.e. no smoothing.
* executed: registration_algorithm.Execute(fixed, moving, init) for the Demons
  filter identified by alg; the returned displacement field lives on the fixed
  image's grid.
* newZero: sitk.Image(w, h, d, pid) - a fresh zero-filled image; d = 0 gives a
  two-dimensional image of size [w, h], otherwise the size is [w, h, d].
* copyInformation: img.CopyInformation(ref) - same pixel content as src, grid
  metadata (origin, spacing, direction) copied from ref; sizes must agree.
* transformToDispField: sitk.TransformToDisplacementField(t, pid, size, origin,
  spacing, direction). -/
inductive Img where
  | base (pid : ℕ) (size : List ℕ) (origin spacing direction : List ℚ)
  | smoothed (src : Img) (sigma : ℚ)
  | resampled (src : Img) (size : List ℕ) (t : SitkTransform) (interp : ℕ)
      (origin spacing direction : List ℚ) (defaultValue : ℚ) (pid : ℕ)
  | resampleRef (src ref : Img)
  | executed (alg : ℕ) (fixed moving init : Img)
  | newZero (pid w h d : ℕ)
  | copyInformation (src ref : Img)
  | transformToDispField (t : SitkTransform) (pid : ℕ) (size : List ℕ)
      (origin spacing direction : List ℚ)
deriving DecidableEq, Repr

instance : Inhabited Img := ⟨Img.base 0 [] [] [] []⟩

/-- GetSize of an image, per the library contracts listed at Img. -/
def Img.size : Img → List ℕ
  | .base _ s _ _ _ => s
  | .smoothed src _ => src.size
  | .resampled _ s _ _ _ _ _ _ _ => s
  | .resampleRef _ ref => ref.size
  | .executed _ fixed _ _ => fixed.size
  | .newZero _ w h d => if d = 0 then [w, h] else [w, h, d]
  | .copyInformation src _ => src.size
  | .transformToDispField _ _ s _ _ _ => s

/-- GetOrigin of an image. -/
def Img.origin : Img → List ℚ
  | .base _ _ o _ _ => o
  | .smoothed src _ => src.origin
  | .resampled _ _ _ _ o _ _ _ _ => o
  | .resampleRef _ ref => ref.origin
  | .executed _ fixed _ _ => fixed.origin
  | .newZero _ _ _ d => if d = 0 then [0, 0] else [0, 0, 0]
  | .copyInformation _ ref => ref.origin
  | .transformToDispField _ _ _ o _ _ => o

/-- GetSpacing of an image. -/
def Img.spacing : Img → List ℚ
  | .base _ _ _ sp _ => sp
  | .smoothed src _ => src.spacing
  | .resampled _ _ _ _ _ sp _ _ _ => sp
  | .resampleRef _ ref => ref.spacing
  | .executed _ fixed _ _ => fixed.spacing
  | .newZero _ _ _ d => if d = 0 then [1, 1] else [1, 1, 1]
  | .copyInformation _ ref => ref.spacing
  | .transformToDispField _ _ _ _ sp _ => sp

/-- GetDirection of an image. -/
def Img.direction : Img → List ℚ
  | .base _ _ _ _ dir => dir
  | .smoothed src _ => src.direction
  | .resampled _ _ _ _ _ _ dir _ _ => dir
  | .resampleRef _ ref => ref.direction
  | .executed _ fixed _ _ => fixed.direction
  | .newZero _ _ _ d => if d = 0 then [1, 0, 0, 1] else [1, 0, 0, 0, 1, 0, 0, 0, 1]
  | .copyInformation _ ref => ref.direction
  | .transformToDispField _ _ _ _ _ dir => dir

/-- GetPixelID of an image. -/
def Img.pid : Img → ℕ
  | .base p _ _ _ _ => p
  | .smoothed src _ => src.pid
  | .resampled _ _ _ _ _ _ _ _ p => p
  | .resampleRef src _ => src.pid
  | .executed _ _ _ _ => sitkVectorFloat64
  | .newZero p _ _ _ => p
  | .copyInformation src _ => src.pid
  | .transformToDispField _ p _ _ _ _ => p

/-- GetWidth (size along axis 0; 0 when absent). -/
def Img.width (img : Img) : ℕ := img.size.getD 0 0

/-- GetHeight (size along axis 1; 0 when absent). -/
def Img.height (img : Img) : ℕ := img.size.getD 1 0

/-- GetDepth (size along axis 2; 0 for a two-dimensional image). -/
def Img.depth (img : Img) : ℕ := img.size.getD 2 0

/-- Errors the embedded code can raise.  zeroDivision is Python's
ZeroDivisionError; configError is the checked configuration rejection the spec's
error taxonomy prescribes (the source never produces it). -/
inductive Err where
  | zeroDivision
  | configError
deriving DecidableEq, Repr

/-- The per-axis new grid size of smooth_and_resample:
int(sz/float(shrink_factor) + 0.5).  For a nonnegative argument Python's int()
truncation is the floor. -/
def newSize (sz : ℕ) (shrink_factor : ℚ) : ℕ :=
  (⌊(sz : ℚ) / shrink_factor + 1/2⌋).toNat

/-- smooth_and_resample from the notebook: Gaussian-smooth the input, compute the
new size and new spacing per axis, and resample the smoothed image onto the new
grid with linear interpolation, identity transform, the original origin and
direction, default value 0 and the original pixel type.  The new-spacing list
comprehension zips original size, original spacing and new size, and raises
ZeroDivisionError when a zipped axis has new size 1. -/
def smooth_and_resample (image : Img) (shrink_factor smoothing_sigma : ℚ) :
    Except Err Img :=
  let smoothed_image := Img.smoothed image smoothing_sigma
  let original_spacing := image.spacing
  let original_size := image.size
  let new_size := original_size.map (fun sz => newSize sz shrink_factor)
  let triples := (original_size.zip original_spacing).zip new_size
  if triples.any (fun p => p.2 == 1) then
    .error .zeroDivision
  else
    let new_spacing :=
      triples.map (fun p => (((p.1.1 : ℚ) - 1) * p.1.2) / ((p.2 : ℚ) - 1))
    .ok (Img.resampled smoothed_image new_size SitkTransform.identity sitkLinear
      image.origin new_spacing image.direction 0 image.pid)

/-- One iteration of the pyramid-construction loop: append smooth_and_resample of
the first element of each accumulated list (the base image, fixed_images[0] and
moving_images[0] in the source) to the respective list. -/
def pyramidStep (acc : List Img × List Img) (d : ℚ × ℚ) :
    Except Err (List Img × List Img) := do
  let f ← smooth_and_resample acc.1.headI d.1 d.2
  let m ← smooth_and_resample acc.2.headI d.1 d.2
  pure (acc.1 ++ [f], acc.2 ++ [m])

/-- The pyramid-construction loop of multiscale_demons.  Starting from the
singleton lists holding the original images, for each (shrink factor, sigma) pair
in reversed(list(zip(shrink_factors, smoothing_sigmas))) it runs pyramidStep; the
loop body is skipped when shrink_factors is empty (falsy). -/
def buildPyramids (fixed_image moving_image : Img)
    (shrink_factors smoothing_sigmas : List ℚ) :
    Except Err (List Img × List Img) :=
  if shrink_factors.isEmpty then
    .ok ([fixed_image], [moving_image])
  else
    ((shrink_factors.zip smoothing_sigmas).reverse).foldlM pyramidStep
      ([fixed_image], [moving_image])

/-- The zero displacement field on the grid of ref, as constructed in the source:
sitk.Image(ref.GetWidth(), ref.GetHeight(), ref.GetDepth(), sitkVectorFloat64)
followed by CopyInformation(ref). -/
def zeroDisplacementField (ref : Img) : Img :=
  Img.copyInformation (Img.newZero sitkVectorFloat64 ref.width ref.height ref.depth) ref

/-- The initial displacement field of multiscale_demons, built at the grid of the
last pyramid entry: TransformToDisplacementField when an initial transform is
given, the zero field otherwise. -/
def initialDisplacementField (initial_transform : Option SitkTransform) (top : Img) :
    Img :=
  match initial_transform with
  | some t =>
      Img.transformToDispField t sitkVectorFloat64 top.size top.origin top.spacing
        top.direction
  | none => zeroDisplacementField top

/-- One invocation of registration_algorithm.Execute, with its three arguments. -/
structure ExecCall where
  fixedImg : Img
  movingImg : Img
  initField : Img
deriving DecidableEq, Repr

/-- The result of multiscale_demons: sitk.DisplacementFieldTransform wrapping the
final displacement field. -/
structure DisplacementFieldTransform where
  field : Img
deriving DecidableEq, Repr

/-- One iteration of the coarse-to-fine registration loop of multiscale_demons:
resample the current displacement field onto the grid of the next pair's fixed
image (sitk.Resample(field, f_image): linear interpolation, no smoothing), then
run Execute on that pair with the resampled field. -/
def demonsStep (registration_algorithm : ℕ) (st : Img × List ExecCall)
    (fm : Img × Img) : Img × List ExecCall :=
  let resampledField := Img.resampleRef st.1 fm.1
  (Img.executed registration_algorithm fm.1 fm.2 resampledField,
    st.2 ++ [⟨fm.1, fm.2, resampledField⟩])

/-- multiscale_demons from the notebook.  It builds the two pyramids, constructs
the initial displacement field on the grid of fixed_images[-1], runs Execute
there, then for each pair in reversed(list(zip(fixed_images[0:-1],
moving_images[0:-1]))) resamples the current field onto the pair's fixed image
and runs Execute again, and finally wraps the field as a displacement-field
transform.  Alongside the transform it returns the trace of Execute calls. -/
def multiscale_demons (registration_algorithm : ℕ) (fixed_image moving_image : Img)
    (initial_transform : Option SitkTransform)
    (shrink_factors smoothing_sigmas : List ℚ) :
    Except Err (DisplacementFieldTransform × List ExecCall) := do
  let (fixed_images, moving_images) ←
    buildPyramids fixed_image moving_image shrink_factors smoothing_sigmas
  let topF := fixed_images.getLastD fixed_image
  let topM := moving_images.getLastD moving_image
  let df0 := initialDisplacementField initial_transform topF
  let r0 := Img.executed registration_algorithm topF topM df0
  let pairs := ((fixed_images.dropLast).zip (moving_images.dropLast)).reverse
  let res := pairs.foldl (demonsStep registration_algorithm) (r0, [⟨topF, topM, df0⟩])
  pure (⟨res.1⟩, res.2)

/-- The multiscale loop as the specification states it (section 4.2 steps 3-4):
visit the levels coarsest to finest, invoke Execute once per level, and between
two consecutive levels resample the field returned by Execute onto the next
finer level's grid.  Returns the final field and the trace of Execute calls. -/
def runLevels (a : ℕ) : Img → List (Img × Img) → Img × List ExecCall
  | df, [] => (df, [])
  | df, [(f, m)] => (Img.executed a f m df, [⟨f, m, df⟩])
  | df, (f, m) :: (f2, m2) :: rest =>
      let next :=
        runLevels a (Img.resampleRef (Img.executed a f m df) f2) ((f2, m2) :: rest)
      (next.1, ⟨f, m, df⟩ :: next.2)

/-- Per-axis comparison of grid sizes: a is at most as large as b on every axis. -/
def sizeLe (a b : List ℕ) : Prop := List.Forall₂ (· ≤ ·) a b

/-- The ordering the specification asserts of a pyramid: along the returned
sequence the grids never get coarser, so the coarsest level comes first. -/
def orderedCoarsestFirst (levels : List Img) : Prop :=
  levels.Chain' (fun a b => sizeLe a.size b.size)

/-- Size lists that a SimpleITK image can actually have: two-dimensional, or
three-dimensional with a nonzero third extent (GetDepth distinguishes the two
cases). -/
def validSitkSize (s : List ℕ) : Prop :=
  s.length = 2 ∨ (s.length = 3 ∧ s.getD 2 0 ≠ 0)

/-- Syntactic check that an image is a zero-filled image: true for a freshly
constructed sitk.Image and preserved by CopyInformation (which changes only grid
metadata). -/
def contentIsZero : Img → Bool
  | .newZero _ _ _ _ => true
  | .copyInformation src _ => contentIsZero src
  | _ => false

lemma newSize_le_self (sz : ℕ) (f : ℚ) (hf : 1 ≤ f) : newSize sz f ≤ sz := by
  unfold newSize
  have hdiv : (sz : ℚ) / f ≤ (sz : ℚ) := div_le_self (by positivity) hf
  have hlt : ⌊(sz : ℚ) / f + 1/2⌋ < (sz : ℤ) + 1 := by
    rw [Int.floor_lt]
    push_cast
    linarith
  omega

lemma newSize_lt_self (sz : ℕ) (f : ℚ) (hf : 2 ≤ f) (hsz : 1 < sz) : newSize sz f < sz := by
  unfold newSize
  have hsz2 : (1 : ℚ) < (sz : ℚ) := by exact_mod_cast hsz
  have hdiv : (sz : ℚ) / f ≤ (sz : ℚ) / 2 :=
    div_le_div_of_nonneg_left (by positivity) (by norm_num) hf
  have hlt : ⌊(sz : ℚ) / f + 1/2⌋ < (sz : ℤ) := by
    rw [Int.floor_lt]
    push_cast
    linarith
  omega

lemma newSize_anti (sz : ℕ) (f g : ℚ) (hg : 0 < g) (hfg : g ≤ f) :
    newSize sz f ≤ newSize sz g := by
  unfold newSize
  have hd : (sz : ℚ) / f ≤ (sz : ℚ) / g :=
    div_le_div_of_nonneg_left (by positivity) hg hfg
  have hfl := Int.floor_le_floor (add_le_add_right hd (1/2 : ℚ))
  omega

lemma newSize_eq_round (sz : ℕ) (f : ℚ) :
    newSize sz f = (round ((sz : ℚ) / f)).toNat := by
  rw [newSize, round_eq]

lemma smooth_and_resample_eq_ok {image : Img} {f s : ℚ} {out : Img}
    (h : smooth_and_resample image f s = .ok out) :
    out = Img.resampled (Img.smoothed image s)
      (image.size.map (fun sz => newSize sz f)) SitkTransform.identity sitkLinear
      image.origin
      (((image.size.zip image.spacing).zip (image.size.map (fun sz => newSize sz f))).map
        (fun p => (((p.1.1 : ℚ) - 1) * p.1.2) / ((p.2 : ℚ) - 1)))
      image.direction 0 image.pid := by
  simp only [smooth_and_resample] at h
  split at h
  · cases h
  · exact ((Except.ok.injEq _ _).mp h).symm

lemma smooth_and_resample_error_iff (image : Img) (f s : ℚ) :
    smooth_and_resample image f s = .error Err.zeroDivision ↔
      (((image.size.zip image.spacing).zip (image.size.map (fun sz => newSize sz f))).any
        (fun p => p.2 == 1)) = true := by
  simp only [smooth_and_resample]
  split
  · simp_all
  · simp_all

lemma smooth_and_resample_ne_configError (image : Img) (f s : ℚ) :
    smooth_and_resample image f s ≠ .error Err.configError := by
  simp only [smooth_and_resample]
  split
  · simp
  · simp

lemma pyramidFold_ok (l : List (ℚ × ℚ)) :
    ∀ (f0 m0 : Img) (tf tm fs ms : List Img),
      l.foldlM pyramidStep (f0 :: tf, m0 :: tm) = .ok (fs, ms) →
      ∃ Lf Lm, fs = (f0 :: tf) ++ Lf ∧ ms = (m0 :: tm) ++ Lm ∧
        List.Forall₂ (fun d lvl => smooth_and_resample f0 d.1 d.2 = .ok lvl) l Lf ∧
        List.Forall₂ (fun d lvl => smooth_and_resample m0 d.1 d.2 = .ok lvl) l Lm := by
  induction l with
  | nil =>
      intro f0 m0 tf tm fs ms h
      simp only [List.foldlM_nil] at h
      cases h
      exact ⟨[], [], by simp, by simp, List.Forall₂.nil, List.Forall₂.nil⟩
  | cons d l ih =>
      intro f0 m0 tf tm fs ms h
      simp only [List.foldlM_cons] at h
      cases hp : pyramidStep (f0 :: tf, m0 :: tm) d with
      | error e =>
          rw [hp] at h
          simp only [Bind.bind, Except.bind] at h
          exact Except.noConfusion h
      | ok acc2 =>
          rw [hp] at h
          simp only [Bind.bind, Except.bind] at h
          simp only [pyramidStep, List.headI] at hp
          cases hsf : smooth_and_resample f0 d.1 d.2 with
          | error e =>
              rw [hsf] at hp
              simp only [Bind.bind, Except.bind] at hp
              exact Except.noConfusion hp
          | ok fv =>
              rw [hsf] at hp
              cases hsm : smooth_and_resample m0 d.1 d.2 with
              | error e =>
                  rw [hsm] at hp
                  simp only [Bind.bind, Except.bind] at hp
                  exact Except.noConfusion hp
              | ok mvv =>
                  rw [hsm] at hp
                  simp only [Bind.bind, Except.bind, pure, Except.pure,
                    Except.ok.injEq] at hp
                  subst hp
                  have h' : l.foldlM pyramidStep (f0 :: (tf ++ [fv]), m0 :: (tm ++ [mvv])) =
                      .ok (fs, ms) := by
                    simpa using h
                  obtain ⟨Lf, Lm, hfs, hms, hFf, hFm⟩ := ih f0 m0 (tf ++ [fv]) (tm ++ [mvv]) fs ms h'
                  refine ⟨fv :: Lf, mvv :: Lm, ?_, ?_, .cons hsf hFf, .cons hsm hFm⟩
                  · simp [hfs]
                  · simp [hms]

lemma buildPyramids_ok {fx mv : Img} {sfs sss : List ℚ} {fs ms : List Img}
    (h : buildPyramids fx mv sfs sss = .ok (fs, ms)) :
    ∃ Lf Lm, fs = fx :: Lf ∧ ms = mv :: Lm ∧
      List.Forall₂ (fun d lvl => smooth_and_resample fx d.1 d.2 = .ok lvl)
        ((sfs.zip sss).reverse) Lf ∧
      List.Forall₂ (fun d lvl => smooth_and_resample mv d.1 d.2 = .ok lvl)
        ((sfs.zip sss).reverse) Lm := by
  unfold buildPyramids at h
  split at h
  · next hemp =>
      cases h
      have : sfs = [] := List.isEmpty_iff.mp hemp
      subst this
      exact ⟨[], [], by simp, by simp, by simp, by simp⟩
  · exact pyramidFold_ok _ fx mv [] [] fs ms h

instance : Inhabited ExecCall := ⟨⟨default, default, default⟩⟩

lemma runLevels_trace_length (a : ℕ) :
    ∀ (L : List (Img × Img)) (df : Img), (runLevels a df L).2.length = L.length := by
  intro L
  induction L with
  | nil => intro df; rfl
  | cons hd tl ih =>
      intro df
      cases hd with | mk f m =>
      cases tl with
      | nil => rfl
      | cons hd2 tl2 =>
          cases hd2 with | mk f2 m2 =>
          simp only [runLevels, List.length_cons]
          rw [ih]
          simp

lemma runLevels_head (a : ℕ) (L : List (Img × Img)) (df : Img) (h : L ≠ []) :
    (runLevels a df L).2.getD 0 default = ⟨L.headI.1, L.headI.2, df⟩ := by
  cases L with
  | nil => exact absurd rfl h
  | cons hd tl =>
      cases hd with | mk f m =>
      cases tl with
      | nil => rfl
      | cons hd2 tl2 => cases hd2 with | mk f2 m2 => rfl

lemma runLevels_get_args (a : ℕ) :
    ∀ (L : List (Img × Img)) (df : Img) (i : ℕ), i < L.length →
      ((runLevels a df L).2.getD i default).fixedImg = (L.getD i default).1 ∧
      ((runLevels a df L).2.getD i default).movingImg = (L.getD i default).2 := by
  intro L
  induction L with
  | nil => intro df i hi; exact absurd hi (by simp)
  | cons hd tl ih =>
      intro df i hi
      cases hd with | mk f m =>
      cases tl with
      | nil =>
          have : i = 0 := by simpa using hi
          subst this
          exact ⟨rfl, rfl⟩
      | cons hd2 tl2 =>
          cases hd2 with | mk f2 m2 =>
          cases i with
          | zero => exact ⟨rfl, rfl⟩
          | succ j =>
              have hj : j < ((f2, m2) :: tl2).length := by simpa using hi
              simpa only [runLevels, List.getD_cons_succ] using
                ih (Img.resampleRef (Img.executed a f m df) f2) j hj

lemma runLevels_chain (a : ℕ) :
    ∀ (L : List (Img × Img)) (df : Img) (i : ℕ),
      i + 1 < (runLevels a df L).2.length →
      ((runLevels a df L).2.getD (i + 1) default).initField =
        Img.resampleRef
          (Img.executed a ((runLevels a df L).2.getD i default).fixedImg
            ((runLevels a df L).2.getD i default).movingImg
            ((runLevels a df L).2.getD i default).initField)
          (((runLevels a df L).2.getD (i + 1) default).fixedImg) := by
  intro L
  induction L with
  | nil => intro df i hi; simp [runLevels] at hi
  | cons hd tl ih =>
      intro df i hi
      cases hd with | mk f m =>
      cases tl with
      | nil => simp [runLevels] at hi
      | cons hd2 tl2 =>
          cases hd2 with | mk f2 m2 =>
          cases i with
          | zero =>
              have hne : ((f2, m2) :: tl2) ≠ [] := by simp
              have hh := runLevels_head a ((f2, m2) :: tl2)
                (Img.resampleRef (Img.executed a f m df) f2) hne
              simp only [runLevels, List.getD_cons_succ, List.getD_cons_zero]
              rw [hh]
              simp
          | succ j =>
              have hj : j + 1 < (runLevels a
                  (Img.resampleRef (Img.executed a f m df) f2) ((f2, m2) :: tl2)).2.length := by
                simpa [runLevels] using hi
              simpa only [runLevels, List.getD_cons_succ] using
                ih (Img.resampleRef (Img.executed a f m df) f2) j hj

lemma runLevels_final (a : ℕ) :
    ∀ (L : List (Img × Img)) (df : Img), L ≠ [] →
      (runLevels a df L).1 =
        Img.executed a ((runLevels a df L).2.getLastD default).fixedImg
          ((runLevels a df L).2.getLastD default).movingImg
          ((runLevels a df L).2.getLastD default).initField := by
  intro L
  induction L with
  | nil => intro df h; exact absurd rfl h
  | cons hd tl ih =>
      intro df _
      cases hd with | mk f m =>
      cases tl with
      | nil => rfl
      | cons hd2 tl2 =>
          cases hd2 with | mk f2 m2 =>
          have hne : ((f2, m2) :: tl2) ≠ [] := by simp
          have h2 := ih (Img.resampleRef (Img.executed a f m df) f2) hne
          have hlen : (runLevels a (Img.resampleRef (Img.executed a f m df) f2)
              ((f2, m2) :: tl2)).2 ≠ [] := by
            have := runLevels_trace_length a ((f2, m2) :: tl2)
              (Img.resampleRef (Img.executed a f m df) f2)
            intro hc
            rw [hc] at this
            simp at this
          simp only [runLevels]
          rw [List.getLastD_cons]
          cases hx : (runLevels a (Img.resampleRef (Img.executed a f m df) f2)
              ((f2, m2) :: tl2)).2 with
          | nil => exact absurd hx hlen
          | cons c cs =>
              rw [hx] at h2
              simpa [List.getLastD_cons] using h2

lemma zip_reverse_of_length_eq {α β : Type} :
    ∀ (l1 : List α) (l2 : List β), l1.length = l2.length →
      (l1.zip l2).reverse = l1.reverse.zip l2.reverse := by
  intro l1
  induction l1 with
  | nil => intro l2 h; simp
  | cons a l1 ih =>
      intro l2 h
      cases l2 with
      | nil => simp at h
      | cons b l2 =>
          have hl : l1.length = l2.length := by simpa using h
          have hrl : l1.reverse.length = l2.reverse.length := by simpa using hl
          simp only [List.zip_cons_cons, List.reverse_cons]
          rw [ih l2 hl, List.zip_append hrl]
          rfl

lemma reverse_eq_getLastD_cons {α : Type} (l : List α) (d : α) (h : l ≠ []) :
    l.reverse = l.getLastD d :: l.dropLast.reverse := by
  conv =>
    lhs
    rw [(List.dropLast_append_getLast h).symm]
  rw [List.reverse_append, List.getLastD_eq_getLast? d l, List.getLast?_eq_getLast l h]
  rfl

lemma foldl_demonsStep_eq_runLevels (a : ℕ) :
    ∀ (rest : List (Img × Img)) (f m df : Img) (tr : List ExecCall),
      rest.foldl (demonsStep a) (Img.executed a f m df, tr ++ [⟨f, m, df⟩]) =
        ((runLevels a df ((f, m) :: rest)).1, tr ++ (runLevels a df ((f, m) :: rest)).2) := by
  intro rest
  induction rest with
  | nil => intro f m df tr; simp [runLevels]
  | cons p rest ih =>
      intro f m df tr
      cases p with | mk f2 m2 =>
      rw [List.foldl_cons]
      have step_eq : demonsStep a (Img.executed a f m df, tr ++ [⟨f, m, df⟩]) (f2, m2) =
          (Img.executed a f2 m2 (Img.resampleRef (Img.executed a f m df) f2),
            (tr ++ [⟨f, m, df⟩]) ++
              [⟨f2, m2, Img.resampleRef (Img.executed a f m df) f2⟩]) := rfl
      have ih2 := ih f2 m2 (Img.resampleRef (Img.executed a f m df) f2)
        (tr ++ [(⟨f, m, df⟩ : ExecCall)])
      rw [step_eq, ih2]
      simp only [runLevels, List.append_assoc, List.cons_append, List.nil_append]

lemma multiscale_demons_ok_eq (a : ℕ) (fx mv : Img) (t : Option SitkTransform)
    (sfs sss : List ℚ) (fs ms : List Img)
    (hp : buildPyramids fx mv sfs sss = .ok (fs, ms))
    (hlen : fs.length = ms.length) (hne : fs ≠ []) (hne2 : ms ≠ []) :
    multiscale_demons a fx mv t sfs sss =
      .ok (⟨(runLevels a (initialDisplacementField t (fs.getLastD fx))
              (fs.reverse.zip ms.reverse)).1⟩,
        (runLevels a (initialDisplacementField t (fs.getLastD fx))
          (fs.reverse.zip ms.reverse)).2) := by
  unfold multiscale_demons
  rw [hp]
  simp only [Bind.bind, Except.bind]
  have hdl : fs.dropLast.length = ms.dropLast.length := by
    simp [List.length_dropLast, hlen]
  have hzr : ((fs.dropLast).zip (ms.dropLast)).reverse =
      fs.dropLast.reverse.zip ms.dropLast.reverse :=
    zip_reverse_of_length_eq _ _ hdl
  have hfr : fs.reverse = fs.getLastD fx :: fs.dropLast.reverse :=
    reverse_eq_getLastD_cons fs fx hne
  have hmr : ms.reverse = ms.getLastD mv :: ms.dropLast.reverse :=
    reverse_eq_getLastD_cons ms mv hne2
  have hlevels : fs.reverse.zip ms.reverse =
      (fs.getLastD fx, ms.getLastD mv) :: (fs.dropLast.reverse.zip ms.dropLast.reverse) := by
    rw [hfr, hmr, List.zip_cons_cons]
  rw [hzr]
  have hb := foldl_demonsStep_eq_runLevels a (fs.dropLast.reverse.zip ms.dropLast.reverse)
    (fs.getLastD fx) (ms.getLastD mv)
    (initialDisplacementField t (fs.getLastD fx)) []
  simp only [List.nil_append] at hb
  rw [hb, hlevels]
  rfl

/-- A concrete 8x8 fixed image used to instantiate theorems. -/
def exFixed : Img := Img.base 1 [8, 8] [0, 0] [1, 1] [1, 0, 0, 1]

/-- A concrete 8x8 moving image used to instantiate theorems. -/
def exMoving : Img := Img.base 2 [8, 8] [0, 0] [1, 1] [1, 0, 0, 1]

/-- The result of smooth_and_resample exFixed 2 0, written out. -/
def exFixedHalf : Img :=
  Img.resampled (Img.smoothed exFixed 0) [4, 4] SitkTransform.identity sitkLinear
    [0, 0] [7/3, 7/3] [1, 0, 0, 1] 0 1

lemma newSize_8_2 : newSize 8 2 = 4 := by norm_num [newSize]; try decide

lemma newSize_2_4 : newSize 2 4 = 1 := by norm_num [newSize]

lemma newSize_1_4 : newSize 1 4 = 0 := by norm_num [newSize]

lemma exFixed_sr : smooth_and_resample exFixed 2 0 = .ok exFixedHalf := by
  simp only [smooth_and_resample, exFixed, exFixedHalf, Img.size, Img.spacing, Img.origin,
    Img.direction, Img.pid, List.map, List.zip, List.zipWith, List.any, newSize_8_2]
  norm_num

/-- Claim C2: calling the multiscale driver with an empty descriptor list and no
initial transform makes exactly one Execute call, at full resolution, whose
initial field is the all-zero displacement field on the fixed image's grid, and
the returned transform wraps exactly the result of that direct call
algorithm.Execute(fixed, moving, zero_field). -/
theorem C2_degenerate_equivalence (a : ℕ) (fixed moving : Img) :
    multiscale_demons a fixed moving none [] [] =
      .ok (⟨Img.executed a fixed moving (zeroDisplacementField fixed)⟩,
        [⟨fixed, moving, zeroDisplacementField fixed⟩]) := rfl

/-- Claim C8: for an axis of size at least 1 and a shrink factor greater than 1
the computed new size is at most the original size, and it is strictly smaller
when the shrink factor is at least 2 and the original size exceeds 1. -/
theorem C8_grid_size_monotone (sz : ℕ) (f : ℚ) (h1 : 1 ≤ sz) (hf : 1 < f) :
    newSize sz f ≤ sz ∧ (2 ≤ f → 1 < sz → newSize sz f < sz) :=
  ⟨newSize_le_self sz f (le_of_lt hf), fun h2 hsz => newSize_lt_self sz f h2 hsz⟩

/-- Witness for C8 at size 8 and shrink factor 2. -/
theorem C8_witness :
    newSize 8 2 ≤ 8 ∧ ((2 : ℚ) ≤ 2 → 1 < 8 → newSize 8 2 < 8) :=
  C8_grid_size_monotone 8 2 (by norm_num) (by norm_num)

/-- The image on which claim C4 fails: size 1 per axis. -/
def c4Image : Img := Img.base 1 [1, 1] [0, 0] [1, 1] [1, 0, 0, 1]

/-- The result of smooth_and_resample c4Image 4 0, written out: size 0 per axis. -/
def c4Out : Img :=
  Img.resampled (Img.smoothed c4Image 0) [0, 0] SitkTransform.identity sitkLinear
    [0, 0] [0, 0] [1, 0, 0, 1] 0 1

/-- Claim C4 counterexample: for an image of size [1, 1] and shrink factor 4 the
code computes new size 0 on each axis (int(1/4 + 0.5) = 0) and succeeds, while
the claim's formula round(size/shrink) clamped to a minimum of 1 gives [1, 1];
there is no clamping in the code. -/
theorem C4_counterexample :
    smooth_and_resample c4Image 4 0 = .ok c4Out ∧
      c4Out.size = [0, 0] ∧
      c4Out.size ≠ c4Image.size.map (fun (sz : ℕ) => max ((round ((sz : ℚ) / 4)).toNat) 1) := by
  refine ⟨?_, rfl, ?_⟩
  · simp only [smooth_and_resample, c4Image, c4Out, Img.size, Img.spacing, Img.origin,
      Img.direction, Img.pid, List.map, List.zip, List.zipWith, List.any, newSize_1_4]
    norm_num
  · have : c4Image.size.map (fun (sz : ℕ) => max ((round ((sz : ℚ) / 4)).toNat) 1) = [1, 1] := by
      simp only [c4Image, Img.size, List.map]
      norm_num [round_eq]
    rw [this]
    simp [c4Out, Img.size]

/-- Claim C4 amended: the new grid size per axis equals round(original_size /
shrink_factor) with round half up, with no minimum clamp (the result can be 0). -/
theorem C4_amended (image : Img) (f s : ℚ) (out : Img)
    (h : smooth_and_resample image f s = .ok out) :
    out.size = image.size.map (fun (sz : ℕ) => (round ((sz : ℚ) / f)).toNat) := by
  rw [smooth_and_resample_eq_ok h]
  simp only [Img.size]
  have hfun : (fun sz => newSize sz f) = fun (sz : ℕ) => (round ((sz : ℚ) / f)).toNat :=
    funext (fun sz => newSize_eq_round sz f)
  rw [hfun]

/-- Witness for C4 amended at the 8x8 example and shrink factor 2. -/
theorem C4_witness :
    exFixedHalf.size = exFixed.size.map (fun (sz : ℕ) => (round ((sz : ℚ) / 2)).toNat) :=
  C4_amended exFixed 2 0 exFixedHalf exFixed_sr

/-- The image on which claim C5's division by zero occurs: size 2 per axis with
shrink factor 4 gives new size 1. -/
def c5Image : Img := Img.base 1 [2, 2] [0, 0] [1, 1] [1, 0, 0, 1]

lemma c5Image_error : smooth_and_resample c5Image 4 0 = .error Err.zeroDivision := by
  simp only [smooth_and_resample, c5Image, Img.size, Img.spacing, List.map, List.zip,
    List.zipWith, List.any, newSize_2_4]
  rfl

/-- Claim C5 counterexample: when the computed new size is 1 the code fails with
the ZeroDivisionError propagating out of the spacing formula; the degenerate
input is not rejected or special-cased as a configuration error. -/
theorem C5_counterexample :
    smooth_and_resample c5Image 4 0 = .error Err.zeroDivision ∧
      smooth_and_resample c5Image 4 0 ≠ .error Err.configError := by
  constructor
  · exact c5Image_error
  · rw [c5Image_error]
    simp

/-- Claim C5 amended: the pyramid-level computation never reports a
configuration error; it fails exactly when some zipped axis has new size 1, and
then with the unguarded ZeroDivisionError from the spacing formula propagating
to the caller. -/
theorem C5_amended (image : Img) (f s : ℚ) :
    smooth_and_resample image f s ≠ .error Err.configError ∧
    ((((image.size.zip image.spacing).zip (image.size.map (fun sz => newSize sz f))).any
        (fun p => p.2 == 1)) = true ↔
      smooth_and_resample image f s = .error Err.zeroDivision) :=
  ⟨smooth_and_resample_ne_configError image f s,
    (smooth_and_resample_error_iff image f s).symm⟩

/-- Witness for C5 amended: at the concrete degenerate input the any-condition
holds and the call indeed returns the ZeroDivisionError. -/
theorem C5_witness :
    smooth_and_resample c5Image 4 0 = .error Err.zeroDivision :=
  (C5_amended c5Image 4 0).2.mp (by
    simp only [c5Image, Img.size, Img.spacing, List.map, List.zip, List.zipWith,
      List.any, newSize_2_4]
    rfl)

/-- Claim C7: whenever smooth_and_resample succeeds and the new size along an
axis is at least 2, the output's physical extent on that axis, (new_size - 1) *
new_spacing, equals the input's physical extent (original_size - 1) *
original_spacing, exactly (real arithmetic is modelled by rationals). -/
theorem C7_extent_preserved (image : Img) (f s : ℚ) (out : Img)
    (h : smooth_and_resample image f s = .ok out)
    (hlen : image.spacing.length = image.size.length)
    (i : ℕ) (hi : i < image.size.length)
    (h2 : 2 ≤ out.size.getD i 0) :
    ((out.size.getD i 0 : ℚ) - 1) * out.spacing.getD i 0 =
      ((image.size.getD i 0 : ℚ) - 1) * image.spacing.getD i 0 := by
  have hout := smooth_and_resample_eq_ok h
  subst hout
  have hsp : i < image.spacing.length := hlen ▸ hi
  have hzip1 : i < (image.size.zip image.spacing).length := by
    simp [List.length_zip]
    omega
  have hmap : i < (image.size.map (fun sz => newSize sz f)).length := by
    simpa using hi
  have hzip2 : i <
      ((image.size.zip image.spacing).zip (image.size.map (fun sz => newSize sz f))).length := by
    simp [List.length_zip]
    omega
  have hmap2 : i <
      (((image.size.zip image.spacing).zip (image.size.map (fun sz => newSize sz f))).map
        (fun p => (((p.1.1 : ℚ) - 1) * p.1.2) / ((p.2 : ℚ) - 1))).length := by
    simpa using hzip2
  simp only [Img.size, Img.spacing] at h2 ⊢
  rw [List.getD_eq_getElem _ 0 hmap] at h2 ⊢
  rw [List.getD_eq_getElem _ 0 hmap2, List.getD_eq_getElem _ 0 hi,
    List.getD_eq_getElem _ 0 hsp]
  simp only [List.getElem_map, List.getElem_zip] at h2 ⊢
  set n := newSize image.size[i] f with hn
  have hne : ((n : ℚ) - 1) ≠ 0 := by
    have : (2 : ℚ) ≤ (n : ℚ) := by exact_mod_cast h2
    intro hc
    have : (n : ℚ) = 1 := by linarith
    linarith
  rw [mul_comm]
  exact div_mul_cancel₀ _ hne

/-- Witness for C7 at the 8x8 example with shrink factor 2: the new size is 4
and (4 - 1) * (7/3) = (8 - 1) * 1. -/
theorem C7_witness :
    ((exFixedHalf.size.getD 0 0 : ℚ) - 1) * exFixedHalf.spacing.getD 0 0 =
      ((exFixed.size.getD 0 0 : ℚ) - 1) * exFixed.spacing.getD 0 0 :=
  C7_extent_preserved exFixed 2 0 exFixedHalf exFixed_sr (by rfl) 0 (by simp [exFixed, Img.size])
    (by simp [exFixedHalf, Img.size])

lemma buildPyramids_shape {fx mv : Img} {sfs sss : List ℚ} {fs ms : List Img}
    (hp : buildPyramids fx mv sfs sss = .ok (fs, ms)) :
    fs ≠ [] ∧ ms ≠ [] ∧ fs.length = ms.length ∧
      fs.length = (sfs.zip sss).length + 1 := by
  obtain ⟨Lf, Lm, hfs, hms, hFf, hFm⟩ := buildPyramids_ok hp
  subst hfs
  subst hms
  have h1 := List.Forall₂.length_eq hFf
  have h2 := List.Forall₂.length_eq hFm
  refine ⟨by simp, by simp, ?_, ?_⟩
  · simp only [List.length_cons]
    omega
  · simp only [List.length_cons]
    rw [← h1]
    simp

lemma multiscale_trace_first {a : ℕ} {fx mv : Img} {t : Option SitkTransform}
    {sfs sss : List ℚ} {fs ms : List Img} {res : DisplacementFieldTransform × List ExecCall}
    (hp : buildPyramids fx mv sfs sss = .ok (fs, ms))
    (hr : multiscale_demons a fx mv t sfs sss = .ok res) :
    res.2.getD 0 default =
      ⟨fs.getLastD fx, ms.getLastD mv,
        initialDisplacementField t (fs.getLastD fx)⟩ := by
  obtain ⟨hne, hne2, hlen, _⟩ := buildPyramids_shape hp
  have heq := multiscale_demons_ok_eq a fx mv t sfs sss fs ms hp hlen hne hne2
  rw [heq] at hr
  have hres : res =
      (⟨(runLevels a (initialDisplacementField t (fs.getLastD fx))
          (fs.reverse.zip ms.reverse)).1⟩,
        (runLevels a (initialDisplacementField t (fs.getLastD fx))
          (fs.reverse.zip ms.reverse)).2) := by
    cases hr
    rfl
  subst hres
  have hfr : fs.reverse = fs.getLastD fx :: fs.dropLast.reverse :=
    reverse_eq_getLastD_cons fs fx hne
  have hmr : ms.reverse = ms.getLastD mv :: ms.dropLast.reverse :=
    reverse_eq_getLastD_cons ms mv hne2
  have hlv : fs.reverse.zip ms.reverse =
      (fs.getLastD fx, ms.getLastD mv) :: (fs.dropLast.reverse.zip ms.dropLast.reverse) := by
    rw [hfr, hmr, List.zip_cons_cons]
  rw [hlv]
  exact runLevels_head a _ _ (by simp)

/-- Claim C6: the initial displacement field is defined on exactly the grid of
the coarsest fixed pyramid level (the level registered first, fixed_images[-1]):
same size, origin, spacing and direction; it is the all-zero field when no
initial transform is supplied, and the conversion of the supplied transform to a
displacement field on that same grid otherwise; and the driver's first Execute
call receives exactly this field. -/
theorem C6_initial_field (t : Option SitkTransform) (top : Img)
    (hv : validSitkSize top.size) :
    (initialDisplacementField t top).size = top.size ∧
    (initialDisplacementField t top).origin = top.origin ∧
    (initialDisplacementField t top).spacing = top.spacing ∧
    (initialDisplacementField t top).direction = top.direction ∧
    (t = none → contentIsZero (initialDisplacementField t top) = true) ∧
    (∀ tr, t = some tr →
      initialDisplacementField t top =
        Img.transformToDispField tr sitkVectorFloat64 top.size top.origin top.spacing
          top.direction) ∧
    (∀ a fx mv sfs sss fs ms res,
      buildPyramids fx mv sfs sss = .ok (fs, ms) →
      multiscale_demons a fx mv t sfs sss = .ok res →
      top = fs.getLastD fx →
      res.2.getD 0 default =
        ⟨fs.getLastD fx, ms.getLastD mv, initialDisplacementField t top⟩) := by
  have hgrid : (initialDisplacementField t top).size = top.size ∧
      (initialDisplacementField t top).origin = top.origin ∧
      (initialDisplacementField t top).spacing = top.spacing ∧
      (initialDisplacementField t top).direction = top.direction := by
    cases t with
    | some tr => exact ⟨rfl, rfl, rfl, rfl⟩
    | none =>
        refine ⟨?_, rfl, rfl, rfl⟩
        show (Img.newZero sitkVectorFloat64 top.width top.height top.depth).size = top.size
        rcases hv with h2 | ⟨h3, hd⟩
        · obtain ⟨a, b, hab⟩ := List.length_eq_two.mp h2
          simp [Img.size, Img.width, Img.height, Img.depth, hab]
        · obtain ⟨a, b, c, habc⟩ := List.length_eq_three.mp h3
          rw [habc] at hd
          simp only [List.getD] at hd
          simp [Img.size, Img.width, Img.height, Img.depth, habc]
          intro hc
          exact absurd (by simpa [habc] using hc) hd
  refine ⟨hgrid.1, hgrid.2.1, hgrid.2.2.1, hgrid.2.2.2, ?_, ?_, ?_⟩
  · intro ht
    subst ht
    rfl
  · intro tr ht
    subst ht
    rfl
  · intro a fx mv sfs sss fs ms res hp hr htop
    subst htop
    exact multiscale_trace_first hp hr

/-- Witness for C6: no initial transform, the 8x8 fixed image as the coarsest
level (empty descriptor list). -/
theorem C6_witness :
    (initialDisplacementField none exFixed).size = exFixed.size ∧
    (initialDisplacementField none exFixed).origin = exFixed.origin ∧
    (initialDisplacementField none exFixed).spacing = exFixed.spacing ∧
    (initialDisplacementField none exFixed).direction = exFixed.direction ∧
    contentIsZero (initialDisplacementField none exFixed) = true := by
  have h := C6_initial_field none exFixed (by simp [validSitkSize, exFixed, Img.size])
  exact ⟨h.1, h.2.1, h.2.2.1, h.2.2.2.1, h.2.2.2.2.1 rfl⟩

lemma zip_getD_proj {α β : Type} (l1 : List α) (l2 : List β) (i : ℕ) (d1 : α) (d2 : β)
    (h1 : i < l1.length) (h2 : i < l2.length) :
    (l1.zip l2).getD i (d1, d2) = (l1.getD i d1, l2.getD i d2) := by
  have hz : i < (l1.zip l2).length := by
    simp only [List.length_zip]
    omega
  rw [List.getD_eq_getElem _ _ hz, List.getD_eq_getElem _ _ h1, List.getD_eq_getElem _ _ h2]
  simp [List.getElem_zip]

/-- Claim C3: the driver invokes Execute exactly once per pyramid level, in the
pyramid's coarse-to-fine processing order (first invocation on the level
registered first, fixed_images[-1], last on the original images); between two
consecutive invocations the field returned by the previous Execute is resampled
onto the next finer level's grid by sitk.Resample(field, f_image) with no
smoothing; after the finest level the field is wrapped as a displacement-field
transform with no further resampling. -/
theorem C3_once_per_level (a : ℕ) (fx mv : Img) (t : Option SitkTransform)
    (sfs sss : List ℚ) (fs ms : List Img)
    (res : DisplacementFieldTransform × List ExecCall)
    (hp : buildPyramids fx mv sfs sss = .ok (fs, ms))
    (hr : multiscale_demons a fx mv t sfs sss = .ok res) :
    res.2.length = fs.length ∧
    (∀ i, i < fs.length →
      (res.2.getD i default).fixedImg = fs.reverse.getD i default ∧
      (res.2.getD i default).movingImg = ms.reverse.getD i default) ∧
    (res.2.getD 0 default).fixedImg = fs.getLastD fx ∧
    (∀ i, i + 1 < res.2.length →
      (res.2.getD (i + 1) default).initField =
        Img.resampleRef
          (Img.executed a (res.2.getD i default).fixedImg
            (res.2.getD i default).movingImg (res.2.getD i default).initField)
          ((res.2.getD (i + 1) default).fixedImg)) ∧
    res.1.field =
      Img.executed a (res.2.getLastD default).fixedImg (res.2.getLastD default).movingImg
        (res.2.getLastD default).initField := by
  have hfirst := multiscale_trace_first hp hr
  obtain ⟨hne, hne2, hlen, _⟩ := buildPyramids_shape hp
  have heq := multiscale_demons_ok_eq a fx mv t sfs sss fs ms hp hlen hne hne2
  rw [heq] at hr
  have hres : res =
      (⟨(runLevels a (initialDisplacementField t (fs.getLastD fx))
          (fs.reverse.zip ms.reverse)).1⟩,
        (runLevels a (initialDisplacementField t (fs.getLastD fx))
          (fs.reverse.zip ms.reverse)).2) := by
    cases hr
    rfl
  have hLlen : (fs.reverse.zip ms.reverse).length = fs.length := by
    simp [List.length_zip, hlen]
  have hLne : fs.reverse.zip ms.reverse ≠ [] := by
    intro hc
    have hlc := congrArg List.length hc
    rw [hLlen] at hlc
    simp only [List.length_nil] at hlc
    exact hne (List.length_eq_zero.mp hlc)
  refine ⟨?_, ?_, ?_, ?_, ?_⟩
  · rw [hres]
    rw [runLevels_trace_length a _ _, hLlen]
  · intro i hi
    have hi2 : i < (fs.reverse.zip ms.reverse).length := by rw [hLlen]; exact hi
    have hargs := runLevels_get_args a (fs.reverse.zip ms.reverse)
      (initialDisplacementField t (fs.getLastD fx)) i hi2
    have hproj : (fs.reverse.zip ms.reverse).getD i default =
        (fs.reverse.getD i default, ms.reverse.getD i default) := by
      have h1 : i < fs.reverse.length := by simpa using hi
      have h2 : i < ms.reverse.length := by
        rw [List.length_reverse, ← hlen]
        exact hi
      exact zip_getD_proj _ _ i default default h1 h2
    rw [hres]
    rw [hproj] at hargs
    exact hargs
  · rw [hfirst]
  · intro i hchain
    rw [hres]
    rw [hres] at hchain
    exact runLevels_chain a _ _ i hchain
  · rw [hres]
    exact runLevels_final a _ _ hLne

/-- The result of smooth_and_resample exMoving 2 0, written out. -/
def exMovingHalf : Img :=
  Img.resampled (Img.smoothed exMoving 0) [4, 4] SitkTransform.identity sitkLinear
    [0, 0] [7/3, 7/3] [1, 0, 0, 1] 0 2

lemma exMoving_sr : smooth_and_resample exMoving 2 0 = .ok exMovingHalf := by
  simp only [smooth_and_resample, exMoving, exMovingHalf, Img.size, Img.spacing, Img.origin,
    Img.direction, Img.pid, List.map, List.zip, List.zipWith, List.any, newSize_8_2]
  norm_num

/-- The pyramids for the concrete single-descriptor run. -/
def c3Fs : List Img := [exFixed, exFixedHalf]

def c3Ms : List Img := [exMoving, exMovingHalf]

def c3Z : Img := zeroDisplacementField exFixedHalf

def c3R0 : Img := Img.executed 7 exFixedHalf exMovingHalf c3Z

/-- The full result of the concrete single-descriptor run. -/
def c3Res : DisplacementFieldTransform × List ExecCall :=
  (⟨Img.executed 7 exFixed exMoving (Img.resampleRef c3R0 exFixed)⟩,
    [⟨exFixedHalf, exMovingHalf, c3Z⟩,
      ⟨exFixed, exMoving, Img.resampleRef c3R0 exFixed⟩])

lemma c3_bp : buildPyramids exFixed exMoving [2] [0] = .ok (c3Fs, c3Ms) := by
  unfold buildPyramids
  simp only [List.isEmpty, List.zip, List.zipWith, List.reverse_cons, List.reverse_nil,
    List.nil_append, List.foldlM_cons, List.foldlM_nil]
  show (pyramidStep ([exFixed], [exMoving]) (2, 0) >>= fun b => pure b) = _
  have hstep : pyramidStep ([exFixed], [exMoving]) (2, 0) = .ok (c3Fs, c3Ms) := by
    simp only [pyramidStep, List.headI, exFixed_sr, exMoving_sr, Bind.bind, Except.bind,
      pure, Except.pure, c3Fs, c3Ms]
    rfl
  rw [hstep]
  rfl

lemma c3_run : multiscale_demons 7 exFixed exMoving none [2] [0] = .ok c3Res := by
  unfold multiscale_demons
  rw [c3_bp]
  rfl

/-- Witness for C3: in the concrete single-descriptor run there are exactly two
Execute calls, the first on the coarse level, the second's initial field is the
first result resampled onto the original grid, and the returned transform wraps
the last result. -/
theorem C3_witness :
    c3Res.2.length = c3Fs.length ∧
    (c3Res.2.getD 0 default).fixedImg = c3Fs.getLastD exFixed ∧
    (c3Res.2.getD 1 default).initField =
      Img.resampleRef
        (Img.executed 7 (c3Res.2.getD 0 default).fixedImg
          (c3Res.2.getD 0 default).movingImg (c3Res.2.getD 0 default).initField)
        ((c3Res.2.getD 1 default).fixedImg) ∧
    c3Res.1.field =
      Img.executed 7 (c3Res.2.getLastD default).fixedImg
        (c3Res.2.getLastD default).movingImg (c3Res.2.getLastD default).initField := by
  have h := C3_once_per_level 7 exFixed exMoving none [2] [0] c3Fs c3Ms c3Res c3_bp c3_run
  exact ⟨h.1, h.2.2.1, h.2.2.2.1 0 (by rw [h.1]; norm_num [c3Fs]), h.2.2.2.2⟩

/-- Claim C9: every derived pyramid level is produced by smoothing-and-resampling
the original base image passed to the driver (fixed_images[0] / moving_images[0],
which remain the unmodified inputs at the head of each list), never a previously
produced level; the embedding is pure, so the inputs are never mutated. -/
theorem C9_levels_fresh_from_base (fx mv : Img) (sfs sss : List ℚ) (fs ms : List Img)
    (hp : buildPyramids fx mv sfs sss = .ok (fs, ms)) :
    fs.headI = fx ∧ ms.headI = mv ∧
    List.Forall₂ (fun d lvl => smooth_and_resample fx d.1 d.2 = .ok lvl)
      ((sfs.zip sss).reverse) fs.tail ∧
    List.Forall₂ (fun d lvl => smooth_and_resample mv d.1 d.2 = .ok lvl)
      ((sfs.zip sss).reverse) ms.tail := by
  obtain ⟨Lf, Lm, hfs, hms, hFf, hFm⟩ := buildPyramids_ok hp
  subst hfs
  subst hms
  exact ⟨rfl, rfl, by simpa using hFf, by simpa using hFm⟩

/-- Witness for C9 at the concrete single-descriptor run. -/
theorem C9_witness :
    c3Fs.headI = exFixed ∧ c3Ms.headI = exMoving ∧
    List.Forall₂ (fun d lvl => smooth_and_resample exFixed d.1 d.2 = .ok lvl)
      ((([(2 : ℚ)]).zip ([(0 : ℚ)])).reverse) c3Fs.tail ∧
    List.Forall₂ (fun d lvl => smooth_and_resample exMoving d.1 d.2 = .ok lvl)
      ((([(2 : ℚ)]).zip ([(0 : ℚ)])).reverse) c3Ms.tail :=
  C9_levels_fresh_from_base exFixed exMoving [2] [0] c3Fs c3Ms c3_bp

lemma sr_ok_size {image : Img} {f s : ℚ} {out : Img}
    (h : smooth_and_resample image f s = .ok out) :
    out.size = image.size.map (fun sz => newSize sz f) := by
  rw [smooth_and_resample_eq_ok h]
  rfl

lemma sizeLe_map_of_pointwise (l : List ℕ) (g1 g2 : ℕ → ℕ) (h : ∀ x ∈ l, g1 x ≤ g2 x) :
    sizeLe (l.map g1) (l.map g2) := by
  unfold sizeLe
  rw [List.forall₂_map_left_iff, List.forall₂_map_right_iff]
  exact List.forall₂_same.mpr h

lemma sizeLe_map_self (l : List ℕ) (g : ℕ → ℕ) (h : ∀ x ∈ l, g x ≤ x) :
    sizeLe (l.map g) l := by
  unfold sizeLe
  rw [List.forall₂_map_left_iff]
  exact List.forall₂_same.mpr h

lemma pyramid_sizes_ordered (fx : Img) :
    ∀ (descs : List (ℚ × ℚ)) (L : List Img),
      List.Forall₂ (fun d lvl => smooth_and_resample fx d.1 d.2 = .ok lvl) descs L →
      (∀ d ∈ descs, 1 < d.1) →
      descs.Chain' (fun d e => e.1 ≤ d.1) →
      orderedCoarsestFirst (L ++ [fx]) := by
  intro descs
  induction descs with
  | nil =>
      intro L hF _ _
      cases hF
      simp [orderedCoarsestFirst]
  | cons d descs ih =>
      intro L hF hval hchain
      cases hF with
      | cons hd hF2 =>
          rename_i lvl L2
          have hlvl : lvl.size = fx.size.map (fun sz => newSize sz d.1) := sr_ok_size hd
          have hd1 : 1 < d.1 := hval d (by simp)
          cases hF2 with
          | nil =>
              simp only [List.nil_append, List.cons_append]
              rw [orderedCoarsestFirst, List.chain'_cons]
              refine ⟨?_, List.chain'_singleton fx⟩
              rw [hlvl]
              exact sizeLe_map_self fx.size _
                (fun x _ => newSize_le_self x d.1 (le_of_lt hd1))
          | cons hd2 hF3 =>
              rename_i e lvl2 descs2 L3
              have hlvl2 : lvl2.size = fx.size.map (fun sz => newSize sz e.1) :=
                sr_ok_size hd2
              have he1 : 1 < e.1 := hval e (by simp)
              have hde : e.1 ≤ d.1 := (List.chain'_cons.mp hchain).1
              have hchain2 : (e :: descs2).Chain' (fun d e => e.1 ≤ d.1) :=
                (List.chain'_cons.mp hchain).2
              have hval2 : ∀ x ∈ e :: descs2, 1 < x.1 := by
                intro x hx
                exact hval x (List.mem_cons_of_mem d hx)
              have hrest := ih (lvl2 :: L3) (List.Forall₂.cons hd2 hF3) hval2 hchain2
              simp only [List.cons_append] at hrest ⊢
              rw [orderedCoarsestFirst, List.chain'_cons]
              refine ⟨?_, hrest⟩
              rw [hlvl, hlvl2]
              exact sizeLe_map_of_pointwise fx.size _ _
                (fun x _ => newSize_anti x d.1 e.1 (lt_trans one_pos he1) hde)

/-- Claim C1 amended: the pyramid, read in the driver's processing order (the
reverse of the list the loop builds), has exactly len(descriptors) + 1 images;
the original input image is last and bit-identical to the input; the derived
levels appear in the caller's descriptor order (level i is produced from
descriptor i); consequently the sequence is ordered coarsest first exactly when
the descriptors are supplied coarse-to-fine (nonincreasing shrink factors), not
for every valid descriptor list. -/
theorem C1_amended (fx mv : Img) (sfs sss : List ℚ) (fs ms : List Img)
    (hp : buildPyramids fx mv sfs sss = .ok (fs, ms)) :
    fs.reverse.length = (sfs.zip sss).length + 1 ∧
    fs.reverse.getLast? = some fx ∧
    List.Forall₂ (fun d lvl => smooth_and_resample fx d.1 d.2 = .ok lvl)
      (sfs.zip sss) fs.reverse.dropLast ∧
    ((∀ d ∈ sfs.zip sss, 1 < d.1) →
      (sfs.zip sss).Chain' (fun d e => e.1 ≤ d.1) →
      orderedCoarsestFirst fs.reverse) := by
  obtain ⟨Lf, Lm, hfs, hms, hFf, hFm⟩ := buildPyramids_ok hp
  subst hfs
  subst hms
  have hrev : (fx :: Lf).reverse = Lf.reverse ++ [fx] := by simp
  have hF : List.Forall₂ (fun d lvl => smooth_and_resample fx d.1 d.2 = .ok lvl)
      (sfs.zip sss) Lf.reverse := by
    have h2 := List.forall₂_reverse_iff.mpr hFf
    simpa using h2
  refine ⟨?_, ?_, ?_, ?_⟩
  · rw [hrev]
    simp [hF.length_eq.symm]
  · rw [hrev]
    simp
  · rw [hrev, List.dropLast_concat]
    exact hF
  · intro hval hchain
    rw [hrev]
    exact pyramid_sizes_ordered fx (sfs.zip sss) Lf.reverse hF hval hchain

lemma newSize_8_4 : newSize 8 4 = 2 := by norm_num [newSize]; try decide

/-- The shrink-factor-4 level of exFixed. -/
def exFixedQuarter : Img :=
  Img.resampled (Img.smoothed exFixed 0) [2, 2] SitkTransform.identity sitkLinear
    [0, 0] [7, 7] [1, 0, 0, 1] 0 1

/-- The shrink-factor-4 level of exMoving. -/
def exMovingQuarter : Img :=
  Img.resampled (Img.smoothed exMoving 0) [2, 2] SitkTransform.identity sitkLinear
    [0, 0] [7, 7] [1, 0, 0, 1] 0 2

lemma exFixed_sr4 : smooth_and_resample exFixed 4 0 = .ok exFixedQuarter := by
  simp only [smooth_and_resample, exFixed, exFixedQuarter, Img.size, Img.spacing, Img.origin,
    Img.direction, Img.pid, List.map, List.zip, List.zipWith, List.any, newSize_8_4]
  norm_num

lemma exMoving_sr4 : smooth_and_resample exMoving 4 0 = .ok exMovingQuarter := by
  simp only [smooth_and_resample, exMoving, exMovingQuarter, Img.size, Img.spacing, Img.origin,
    Img.direction, Img.pid, List.map, List.zip, List.zipWith, List.any, newSize_8_4]
  norm_num

/-- The fixed pyramid list built for descriptors [(2,0), (4,0)] (fine-to-coarse
reading order, as the specification says the caller supplies them). -/
def c1xFs : List Img := [exFixed, exFixedQuarter, exFixedHalf]

def c1xMs : List Img := [exMoving, exMovingQuarter, exMovingHalf]

lemma c1x_bp : buildPyramids exFixed exMoving [2, 4] [0, 0] = .ok (c1xFs, c1xMs) := by
  unfold buildPyramids
  simp only [List.isEmpty, List.zip, List.zipWith, List.reverse_cons, List.reverse_nil,
    List.nil_append, List.foldlM_cons, List.foldlM_nil, List.cons_append]
  have hstep1 : pyramidStep ([exFixed], [exMoving]) (4, 0) =
      .ok ([exFixed, exFixedQuarter], [exMoving, exMovingQuarter]) := by
    simp only [pyramidStep, List.headI, exFixed_sr4, exMoving_sr4, Bind.bind, Except.bind,
      pure, Except.pure]
    rfl
  have hstep2 : pyramidStep ([exFixed, exFixedQuarter], [exMoving, exMovingQuarter]) (2, 0) =
      .ok (c1xFs, c1xMs) := by
    simp only [pyramidStep, List.headI, exFixed_sr, exMoving_sr, Bind.bind, Except.bind,
      pure, Except.pure, c1xFs, c1xMs]
    rfl
  rw [hstep1]
  show (Except.ok ([exFixed, exFixedQuarter], [exMoving, exMovingQuarter]) >>=
      fun x => pyramidStep x (2, 0) >>= fun b => pure b) = _
  simp only [Bind.bind, Except.bind, hstep2]
  rfl

/-- Claim C1 counterexample: for the valid descriptor list [(2,0), (4,0)] -
supplied fine-to-coarse exactly as the specification prescribes - the pyramid in
processing order is [size [4,4], size [2,2], size [8,8]]: the first image is not
the coarsest, so the pyramid is not ordered coarsest first (the original image
is still last and bit-identical). -/
theorem C1_counterexample :
    buildPyramids exFixed exMoving [2, 4] [0, 0] = .ok (c1xFs, c1xMs) ∧
    ((1 : ℚ) < 2 ∧ (1 : ℚ) < 4 ∧ (0 : ℚ) ≤ 0) ∧
    c1xFs.reverse.getLast? = some exFixed ∧
    ¬ orderedCoarsestFirst c1xFs.reverse := by
  refine ⟨c1x_bp, ⟨by norm_num, by norm_num, le_refl 0⟩, by rfl, ?_⟩
  intro h
  rw [orderedCoarsestFirst] at h
  have h1 := (List.chain'_cons.mp h).1
  rw [sizeLe] at h1
  simp only [c1xFs, exFixedHalf, exFixedQuarter, Img.size, List.reverse_cons,
    List.reverse_nil, List.nil_append, List.cons_append] at h1
  rcases h1 with _ | ⟨hle, _⟩
  omega

/-- The fixed pyramid list built for descriptors [(4,0), (2,0)] (coarse-to-fine,
as the notebook's demo call supplies them). -/
def c1wFs : List Img := [exFixed, exFixedHalf, exFixedQuarter]

def c1wMs : List Img := [exMoving, exMovingHalf, exMovingQuarter]

lemma c1w_bp : buildPyramids exFixed exMoving [4, 2] [0, 0] = .ok (c1wFs, c1wMs) := by
  unfold buildPyramids
  simp only [List.isEmpty, List.zip, List.zipWith, List.reverse_cons, List.reverse_nil,
    List.nil_append, List.foldlM_cons, List.foldlM_nil, List.cons_append]
  have hstep1 : pyramidStep ([exFixed], [exMoving]) (2, 0) =
      .ok ([exFixed, exFixedHalf], [exMoving, exMovingHalf]) := by
    simp only [pyramidStep, List.headI, exFixed_sr, exMoving_sr, Bind.bind, Except.bind,
      pure, Except.pure]
    rfl
  have hstep2 : pyramidStep ([exFixed, exFixedHalf], [exMoving, exMovingHalf]) (4, 0) =
      .ok (c1wFs, c1wMs) := by
    simp only [pyramidStep, List.headI, exFixed_sr4, exMoving_sr4, Bind.bind, Except.bind,
      pure, Except.pure, c1wFs, c1wMs]
    rfl
  rw [hstep1]
  show (Except.ok ([exFixed, exFixedHalf], [exMoving, exMovingHalf]) >>=
      fun x => pyramidStep x (4, 0) >>= fun b => pure b) = _
  simp only [Bind.bind, Except.bind, hstep2]
  rfl

/-- Witness for C1 amended: with the coarse-to-fine list [(4,0), (2,0)] the
pyramid has 3 images, the original last, levels in descriptor order, and is
ordered coarsest first. -/
theorem C1_witness :
    c1wFs.reverse.length = (([(4 : ℚ), 2]).zip ([(0 : ℚ), 0])).length + 1 ∧
    c1wFs.reverse.getLast? = some exFixed ∧
    List.Forall₂ (fun d lvl => smooth_and_resample exFixed d.1 d.2 = .ok lvl)
      (([(4 : ℚ), 2]).zip ([(0 : ℚ), 0])) c1wFs.reverse.dropLast ∧
    orderedCoarsestFirst c1wFs.reverse := by
  have h := C1_amended exFixed exMoving [4, 2] [0, 0] c1wFs c1wMs c1w_bp
  refine ⟨h.1, h.2.1, h.2.2.1, h.2.2.2 ?_ ?_⟩
  · intro d hd
    simp only [List.zip, List.zipWith, List.mem_cons, List.not_mem_nil, or_false] at hd
    rcases hd with rfl | rfl
    · norm_num
    · norm_num
  · show ([((4 : ℚ), (0 : ℚ)), ((2 : ℚ), (0 : ℚ))]).Chain' (fun d e => e.1 ≤ d.1)
    refine List.chain'_cons.mpr ⟨by norm_num, List.chain'_singleton _⟩

lemma take_zip_comm {α β : Type} :
    ∀ (k : ℕ) (l1 : List α) (l2 : List β),
      (l1.zip l2).take k = (l1.take k).zip (l2.take k) := by
  intro k
  induction k with
  | zero => intro l1 l2; simp
  | succ n ih =>
      intro l1 l2
      cases l1 with
      | nil => simp
      | cons a l1 =>
          cases l2 with
          | nil => simp
          | cons b l2 =>
              simp only [List.zip_cons_cons, List.take_succ_cons]
              rw [ih]

lemma zip_eq_zip_take_min {α β : Type} (l1 : List α) (l2 : List β) :
    l1.zip l2 = (l1.take (min l1.length l2.length)).zip (l2.take (min l1.length l2.length)) := by
  rw [← take_zip_comm]
  exact (List.take_of_length_le (by rw [List.length_zip])).symm

lemma buildPyramids_take (fx mv : Img) (sfs sss : List ℚ)
    (h1 : sfs ≠ []) (h2 : sss ≠ []) :
    buildPyramids fx mv sfs sss =
      buildPyramids fx mv (sfs.take (min sfs.length sss.length))
        (sss.take (min sfs.length sss.length)) := by
  have hk : 1 ≤ min sfs.length sss.length := by
    have ha := List.length_pos.mpr h1
    have hb := List.length_pos.mpr h2
    omega
  have he1 : ¬ (sfs.isEmpty = true) := by
    cases sfs with
    | nil => exact absurd rfl h1
    | cons a l => simp
  have he2 : ¬ ((sfs.take (min sfs.length sss.length)).isEmpty = true) := by
    have : (sfs.take (min sfs.length sss.length)).length = min sfs.length sss.length := by
      rw [List.length_take]
      omega
    intro hc
    rw [List.isEmpty_iff] at hc
    rw [hc] at this
    simp at this
    omega
  unfold buildPyramids
  rw [if_neg he1, if_neg he2, ← zip_eq_zip_take_min]

/-- Claim C10: when shrink_factors and smoothing_sigmas are non-empty lists of
unequal lengths, no length validation occurs: the call behaves exactly as with
both lists truncated to the shorter length (zip pairs them element-wise), and
the pyramids contain min(len(shrink_factors), len(smoothing_sigmas)) + 1 images. -/
theorem C10_silent_truncation (a : ℕ) (fx mv : Img) (t : Option SitkTransform)
    (sfs sss : List ℚ) (h1 : sfs ≠ []) (h2 : sss ≠ [])
    (h3 : sfs.length ≠ sss.length) :
    buildPyramids fx mv sfs sss =
      buildPyramids fx mv (sfs.take (min sfs.length sss.length))
        (sss.take (min sfs.length sss.length)) ∧
    multiscale_demons a fx mv t sfs sss =
      multiscale_demons a fx mv t (sfs.take (min sfs.length sss.length))
        (sss.take (min sfs.length sss.length)) ∧
    (∀ fs ms, buildPyramids fx mv sfs sss = .ok (fs, ms) →
      fs.length = min sfs.length sss.length + 1 ∧
      ms.length = min sfs.length sss.length + 1) := by
  have hbp := buildPyramids_take fx mv sfs sss h1 h2
  refine ⟨hbp, ?_, ?_⟩
  · unfold multiscale_demons
    rw [hbp]
  · intro fs ms hp
    obtain ⟨_, _, hlen, hcount⟩ := buildPyramids_shape hp
    have hz : (sfs.zip sss).length = min sfs.length sss.length := List.length_zip sfs sss
    rw [hz] at hcount
    exact ⟨hcount, by omega⟩

/-- Witness for C10: shrink_factors [2] with smoothing_sigmas [0, 0] behaves as
with [0] and yields two-image pyramids. -/
theorem C10_witness :
    buildPyramids exFixed exMoving [2] [0, 0] = buildPyramids exFixed exMoving [2] [0] ∧
    multiscale_demons 7 exFixed exMoving none [2] [0, 0] =
      multiscale_demons 7 exFixed exMoving none [2] [0] ∧
    c3Fs.length = 2 ∧ c3Ms.length = 2 := by
  have h := C10_silent_truncation 7 exFixed exMoving none [2] [0, 0]
    (by simp) (by simp) (by simp)
  have hbp2 : buildPyramids exFixed exMoving [2] [0, 0] = .ok (c3Fs, c3Ms) := by
    have := h.1
    simp only [List.length_cons, List.length_nil, List.length_singleton] at this
    rw [this]
    exact c3_bp
  have hl := h.2.2 c3Fs c3Ms hbp2
  refine ⟨?_, ?_, ?_, ?_⟩
  · simpa using h.1
  · simpa using h.2.1
  · simpa using hl.1
  · simpa using hl.2
